import Mathlib

/-!
Verification development for `src/plot_reconstructed_codebook.py` of the
LatticeQuant repository.

The numeric domain is modelled exactly over `ℚ`: numpy floating-point
operations are idealised as exact rational arithmetic.  The two lattice
quantizers, the generator matrix returned by `get_a2`, and scipy's Voronoi
diagram are external collaborators whose code is not part of the verified
source; they enter the embedding as parameters: a quantizer is represented
by its encode-then-decode round trip `Point → Point` (the opaque
intermediate representation is produced and immediately consumed), and the
Voronoi cell extraction by an oracle `List Point → ℕ → List Point`.
-/

namespace LatticeQuant

abbrev Point := ℚ × ℚ

/-- A 2×2 real generator matrix (the `G` argument of `compare_codebooks`). -/
structure Mat2 where
  m00 : ℚ
  m01 : ℚ
  m10 : ℚ
  m11 : ℚ

/-- Code: `np.dot(G, np.array([i, j]))`. -/
def Mat2.mulVec (G : Mat2) (v : ℚ × ℚ) : Point :=
  (G.m00 * v.1 + G.m01 * v.2, G.m10 * v.1 + G.m11 * v.2)

/-- numpy's default relative tolerance of `np.allclose` (not overridden at the
call sites in `compare_codebooks`). -/
def rtol : ℚ := 1 / 100000

/-- the absolute tolerance `atol=1e-7` passed at lines 65-66. -/
def atol : ℚ := 1 / 10000000

/-- One component of `np.allclose(a, b, atol=1e-7)`: numpy's documented test
`|a - b| <= atol + rtol * |b|` with the default `rtol = 1e-5` kept. -/
def npClose (a b : ℚ) : Prop := |a - b| ≤ atol + rtol * |b|

instance npClose.dec (a b : ℚ) : Decidable (npClose a b) := by
  unfold npClose; infer_instance

/-- `np.allclose` on 2-vectors: both components close. -/
def npAllclose (x y : Point) : Prop := npClose x.1 y.1 ∧ npClose x.2 y.2

instance npAllclose.dec (x y : Point) : Decidable (npAllclose x y) := by
  unfold npAllclose; infer_instance

/-- Round to the nearest integer with ties to even, numpy's rounding mode. -/
def roundHalfEven (x : ℚ) : ℤ :=
  if x - ⌊x⌋ < 1/2 then ⌊x⌋
  else if 1/2 < x - ⌊x⌋ then ⌊x⌋ + 1
  else if 2 ∣ ⌊x⌋ then ⌊x⌋ else ⌊x⌋ + 1

/-- `np.round(x, decimals=9)` idealised over `ℚ`. -/
def round9 (x : ℚ) : ℚ := (roundHalfEven (x * 10 ^ 9) : ℚ) / 10 ^ 9

/-- `tuple(np.round(dec, decimals=9))` (line 71). -/
def roundPoint (p : Point) : Point := (round9 p.1, round9 p.2)

/-- Line 46: `r_q = (1 - q**(1-M)) / (q - 1)`.  The `ZeroDivisionError`
raised by Python for `q = 1` (division by zero) and for `q = 0, M ≥ 2`
(`0 ** negative`) is modelled as `none`. -/
def r_q (q M : ℕ) : Option ℚ :=
  if q = 0 ∧ 2 ≤ M then none
  else if q = 1 then none
  else some ((1 - (q : ℚ) ^ ((1 : ℤ) - (M : ℤ))) / ((q : ℚ) - 1))

/-- Line 49: the alphabet-size argument `(q**M) * (1 - r_q)` passed to the
flat `NestedLatticeQuantizer` constructor. -/
def flatAlphaOf (q M : ℕ) : Option ℚ :=
  (r_q q M).map (fun r => (q : ℚ) ^ M * (1 - r))

/-- The mutable accumulators of the sweep loop of `compare_codebooks`
(lines 43-52): decoded codebook points, mismatch records, match records,
the dict `point_map` (as an insertion-ordered association list) and the
duplicate records. -/
structure SweepState where
  latticePoints : List Point
  mismatches : List (Point × Point × Point)
  matched : List (Point × Point)
  pointMap : List (Point × (ℕ × ℕ))
  duplicates : List (Point × (ℕ × ℕ) × (ℕ × ℕ))
deriving DecidableEq

def initState : SweepState := ⟨[], [], [], [], []⟩

/-- Lookup in the association list modelling the Python dict `point_map`. -/
def mapLookup (m : List (Point × (ℕ × ℕ))) (k : Point) : Option (ℕ × ℕ) :=
  match m with
  | [] => none
  | (k2, v) :: rest => if k2 = k then some v else mapLookup rest k

/-- One iteration of the sweep body of `compare_codebooks` (lines 57-77) at
index pair `ij`.  `hdec` and `ndec` are the encode-then-decode round trips
of the hierarchical and of the flat quantizer, `d` the perturbation drawn
once per run (line 54). -/
def processPair (G : Mat2) (hdec ndec : Point → Point) (d : Point)
    (s : SweepState) (ij : ℕ × ℕ) : SweepState :=
  let l_p := G.mulVec ((ij.1 : ℚ), (ij.2 : ℚ)) + d
  let dec := hdec l_p
  let l_dec := ndec l_p
  let s1 :=
    if npAllclose l_dec l_p then
      if ¬ npAllclose dec l_dec then
        { s with mismatches := s.mismatches ++ [(l_p, dec, l_dec)] }
      else
        { s with matched := s.matched ++ [(l_p, dec)] }
    else s
  let dec_tuple := roundPoint dec
  let s2 :=
    match mapLookup s1.pointMap dec_tuple with
    | some firstSeen =>
        { s1 with duplicates := s1.duplicates ++ [(dec_tuple, firstSeen, ij)] }
    | none =>
        { s1 with pointMap := s1.pointMap ++ [(dec_tuple, ij)] }
  { s2 with latticePoints := s2.latticePoints ++ [dec] }

/-- Lines 55-56: `for i in range(q**M): for j in range(q**M):` — the swept
index pairs in row-major order. -/
def gridRowMajor (n : ℕ) : List (ℕ × ℕ) :=
  (List.range n).flatMap (fun i => (List.range n).map (fun j => (i, j)))

/-- The same index set swept with the two loops interchanged
(column-major order). -/
def gridColMajor (n : ℕ) : List (ℕ × ℕ) :=
  (List.range n).flatMap (fun j => (List.range n).map (fun i => (i, j)))

/-- The full sweep of `compare_codebooks` (lines 55-77). -/
def sweep (G : Mat2) (hdec ndec : Point → Point) (d : Point) (q M : ℕ) :
    SweepState :=
  (gridRowMajor (q ^ M)).foldl (processPair G hdec ndec d) initState

/-- The sweep re-run in column-major enumeration order. -/
def sweepCol (G : Mat2) (hdec ndec : Point → Point) (d : Point) (q M : ℕ) :
    SweepState :=
  (gridColMajor (q ^ M)).foldl (processPair G hdec ndec d) initState

/-- The console summary of lines 80-98: the exact-equality unique point
count `len(np.unique(lattice_points, axis=0))`, the duplicate list and the
mismatch list. -/
structure Report where
  uniqueCount : ℕ
  duplicates : List (Point × (ℕ × ℕ) × (ℕ × ℕ))
  mismatches : List (Point × Point × Point)
deriving DecidableEq

def mkReport (s : SweepState) : Report :=
  ⟨s.latticePoints.dedup.length, s.duplicates, s.mismatches⟩

/-- Line 110: index of the first decoded point with both coordinates within
`1e-2` of the origin (`np.isclose(..., atol=1e-2)`; the relative term of
`np.isclose` vanishes against the zero reference vector).  `none` models the
`IndexError` raised by `[0]` on an empty `np.where` result. -/
def findOriginIdx (pts : List Point) : Option ℕ :=
  pts.findIdx? (fun p => decide (|p.1| ≤ 1/100) && decide (|p.2| ≤ 1/100))

/-- Scaling a vertex list by a scalar factor (lines 114-116). -/
def scalePoly (c : ℚ) (l : List Point) : List Point :=
  l.map (fun p => (c * p.1, c * p.2))

/-- Lines 118-120: `np.vstack([v, v[0]])` — close a polygon by repeating its
first vertex at the end. -/
def closePoly : List Point → List Point
  | [] => []
  | v :: vs => v :: (vs ++ [v])

/-- Lines 114-120: the three scaled closed shaping polygons: inner
`q^M (1 - r)`, nominal `q^M`, outer `q^M (1 + r)`. -/
def shapingPolys (q M : ℕ) (r : ℚ) (verts : List Point) :
    List Point × List Point × List Point :=
  (closePoly (scalePoly ((q : ℚ) ^ M * (1 - r)) verts),
   closePoly (scalePoly ((q : ℚ) ^ M) verts),
   closePoly (scalePoly ((q : ℚ) ^ M * (1 + r)) verts))

/-- The rendering geometry produced by `plot_with_voronoi`. -/
structure Render where
  innerPoly : List Point
  nominalPoly : List Point
  outerPoly : List Point
deriving DecidableEq

/-- Lines 104-135, the rendering path of a run.  `vorCell` is the scipy
Voronoi oracle returning the vertex list of the region of the point at the
given index.  A failed origin lookup (line 110) or an empty vertex list is
`none` (the `IndexError`). -/
def plot_with_voronoi (vorCell : List Point → ℕ → List Point)
    (pts : List Point) (q M : ℕ) (r : ℚ) : Option Render :=
  match findOriginIdx pts with
  | none => none
  | some idx =>
    match vorCell pts idx with
    | [] => none
    | v :: vs =>
      let polys := shapingPolys q M r (v :: vs)
      some ⟨polys.1, polys.2.1, polys.2.2⟩

/-- Lines 42-101: `compare_codebooks`.  `none` models the
`ZeroDivisionError` raised while computing `r_q` (before any quantizer is
built and before the sweep).  Otherwise the run produces the report —
printed in full before rendering is attempted — paired with the optional
rendering result (`none` when `with_plot` is false or rendering fails). -/
def compare_codebooks (G : Mat2) (hdec ndec : Point → Point)
    (vorCell : List Point → ℕ → List Point) (d : Point)
    (q M : ℕ) (with_plot : Bool) : Option (Report × Option Render) :=
  match r_q q M with
  | none => none
  | some r =>
    let s := sweep G hdec ndec d q M
    some (mkReport s,
      if with_plot then plot_with_voronoi vorCell s.latticePoints q M r
      else none)

/-- The perturbed lattice point of index pair `ij` (line 57). -/
def pointOf (G : Mat2) (d : Point) (ij : ℕ × ℕ) : Point :=
  G.mulVec ((ij.1 : ℚ), (ij.2 : ℚ)) + d

/-- The hierarchical decode recorded for index pair `ij` (lines 59-60). -/
def decOf (G : Mat2) (hdec : Point → Point) (d : Point) (ij : ℕ × ℕ) : Point :=
  hdec (pointOf G d ij)

/-- The 9-decimal rounding of the hierarchical decode of `ij` (line 71). -/
def roundOf (G : Mat2) (hdec : Point → Point) (d : Point) (ij : ℕ × ℕ) : Point :=
  roundPoint (decOf G hdec d ij)

/-- The mismatch record the classification step (lines 65-67) retains for
index pair `ij`, when it retains one. -/
def classifyMismatch (G : Mat2) (hdec ndec : Point → Point) (d : Point)
    (ij : ℕ × ℕ) : Option (Point × Point × Point) :=
  if npAllclose (ndec (pointOf G d ij)) (pointOf G d ij) ∧
      ¬ npAllclose (decOf G hdec d ij) (ndec (pointOf G d ij)) then
    some (pointOf G d ij, decOf G hdec d ij, ndec (pointOf G d ij))
  else none

/-- Squared euclidean distance between two points. -/
def sqDist (a b : Point) : ℚ := (a.1 - b.1) ^ 2 + (a.2 - b.2) ^ 2

/-- Modelled from the spec: the flat quantizer's encode-then-decode round
trip.  The quantizer implementation (`nested_lattice_quantizer.py`) is not
part of the verified source; per the spec's glossary and §4.2/§8 it maps an
arbitrary input to (a) nearest point of its finite codebook, of which
encode/decode is a projection. -/
def nearestPoint (cb : List Point) (x : Point) : Point :=
  match cb with
  | [] => (0, 0)
  | c :: cs => cs.foldl (fun best p => if sqDist p x < sqDist best x then p else best) c

/-! ### Projection lemmas for one sweep step -/

lemma processPair_latticePoints (G : Mat2) (hdec ndec : Point → Point)
    (d : Point) (s : SweepState) (ij : ℕ × ℕ) :
    (processPair G hdec ndec d s ij).latticePoints
      = s.latticePoints ++ [decOf G hdec d ij] := by
  simp only [processPair, decOf, pointOf]
  generalize G.mulVec ((ij.1 : ℚ), (ij.2 : ℚ)) + d = lp
  by_cases h1 : npAllclose (ndec lp) lp <;>
    by_cases h2 : npAllclose (hdec lp) (ndec lp) <;>
      simp only [h1, h2, if_true, if_false, not_true_eq_false, not_false_eq_true,
        ite_true, ite_false] <;>
    cases mapLookup s.pointMap (roundPoint (hdec lp)) <;> rfl

lemma processPair_mismatches (G : Mat2) (hdec ndec : Point → Point)
    (d : Point) (s : SweepState) (ij : ℕ × ℕ) :
    (processPair G hdec ndec d s ij).mismatches
      = s.mismatches ++ (classifyMismatch G hdec ndec d ij).toList := by
  simp only [processPair, classifyMismatch, decOf, pointOf]
  generalize G.mulVec ((ij.1 : ℚ), (ij.2 : ℚ)) + d = lp
  by_cases h1 : npAllclose (ndec lp) lp <;>
    by_cases h2 : npAllclose (hdec lp) (ndec lp) <;>
      simp only [h1, h2, if_true, if_false, not_true_eq_false, not_false_eq_true,
        ite_true, ite_false, true_and, false_and, and_true, and_false] <;>
    cases mapLookup s.pointMap (roundPoint (hdec lp)) <;> simp

lemma processPair_matched (G : Mat2) (hdec ndec : Point → Point)
    (d : Point) (s : SweepState) (ij : ℕ × ℕ) :
    (processPair G hdec ndec d s ij).matched
      = s.matched ++
          (if npAllclose (ndec (pointOf G d ij)) (pointOf G d ij) ∧
              npAllclose (decOf G hdec d ij) (ndec (pointOf G d ij)) then
            [(pointOf G d ij, decOf G hdec d ij)]
          else []) := by
  simp only [processPair, decOf, pointOf]
  generalize G.mulVec ((ij.1 : ℚ), (ij.2 : ℚ)) + d = lp
  by_cases h1 : npAllclose (ndec lp) lp <;>
    by_cases h2 : npAllclose (hdec lp) (ndec lp) <;>
      simp only [h1, h2, if_true, if_false, not_true_eq_false, not_false_eq_true,
        ite_true, ite_false, true_and, false_and, and_true, and_false] <;>
    cases mapLookup s.pointMap (roundPoint (hdec lp)) <;> simp

lemma processPair_pointMap (G : Mat2) (hdec ndec : Point → Point)
    (d : Point) (s : SweepState) (ij : ℕ × ℕ) :
    (processPair G hdec ndec d s ij).pointMap
      = (match mapLookup s.pointMap (roundOf G hdec d ij) with
          | some _ => s.pointMap
          | none => s.pointMap ++ [(roundOf G hdec d ij, ij)]) := by
  simp only [processPair, roundOf, decOf, pointOf]
  generalize G.mulVec ((ij.1 : ℚ), (ij.2 : ℚ)) + d = lp
  by_cases h1 : npAllclose (ndec lp) lp <;>
    by_cases h2 : npAllclose (hdec lp) (ndec lp) <;>
      simp only [h1, h2, if_true, if_false, not_true_eq_false, not_false_eq_true,
        ite_true, ite_false] <;>
    cases mapLookup s.pointMap (roundPoint (hdec lp)) <;> rfl

lemma processPair_duplicates (G : Mat2) (hdec ndec : Point → Point)
    (d : Point) (s : SweepState) (ij : ℕ × ℕ) :
    (processPair G hdec ndec d s ij).duplicates
      = s.duplicates ++
          (match mapLookup s.pointMap (roundOf G hdec d ij) with
            | some firstSeen => [(roundOf G hdec d ij, firstSeen, ij)]
            | none => []) := by
  simp only [processPair, roundOf, decOf, pointOf]
  generalize G.mulVec ((ij.1 : ℚ), (ij.2 : ℚ)) + d = lp
  by_cases h1 : npAllclose (ndec lp) lp <;>
    by_cases h2 : npAllclose (hdec lp) (ndec lp) <;>
      simp only [h1, h2, if_true, if_false, not_true_eq_false, not_false_eq_true,
        ite_true, ite_false] <;>
    cases mapLookup s.pointMap (roundPoint (hdec lp)) <;> simp

lemma processPair_pointMap_some (G : Mat2) (hdec ndec : Point → Point)
    (d : Point) (s : SweepState) (ij : ℕ × ℕ) (v : ℕ × ℕ)
    (h : mapLookup s.pointMap (roundOf G hdec d ij) = some v) :
    (processPair G hdec ndec d s ij).pointMap = s.pointMap := by
  rw [processPair_pointMap, h]

lemma processPair_pointMap_none (G : Mat2) (hdec ndec : Point → Point)
    (d : Point) (s : SweepState) (ij : ℕ × ℕ)
    (h : mapLookup s.pointMap (roundOf G hdec d ij) = none) :
    (processPair G hdec ndec d s ij).pointMap
      = s.pointMap ++ [(roundOf G hdec d ij, ij)] := by
  rw [processPair_pointMap, h]

lemma processPair_duplicates_some (G : Mat2) (hdec ndec : Point → Point)
    (d : Point) (s : SweepState) (ij : ℕ × ℕ) (v : ℕ × ℕ)
    (h : mapLookup s.pointMap (roundOf G hdec d ij) = some v) :
    (processPair G hdec ndec d s ij).duplicates
      = s.duplicates ++ [(roundOf G hdec d ij, v, ij)] := by
  rw [processPair_duplicates, h]

lemma processPair_duplicates_none (G : Mat2) (hdec ndec : Point → Point)
    (d : Point) (s : SweepState) (ij : ℕ × ℕ)
    (h : mapLookup s.pointMap (roundOf G hdec d ij) = none) :
    (processPair G hdec ndec d s ij).duplicates = s.duplicates := by
  rw [processPair_duplicates, h]
  simp

/-! ### Grid enumeration lemmas -/

lemma flatMapGrid_length (L : List ℕ) (f : ℕ → List (ℕ × ℕ)) (n : ℕ)
    (h : ∀ a, (f a).length = n) :
    (L.flatMap f).length = L.length * n := by
  induction L with
  | nil => simp
  | cons a L ih => simp [ih, h, Nat.succ_mul, Nat.add_comm]

lemma flatMapGrid_getElem (L : List ℕ) (n : ℕ) (i j : ℕ) (hj : j < n) :
    ∀ (hi : i < L.length),
      (L.flatMap (fun a => (List.range n).map (fun b => (a, b))))[i * n + j]?
        = some (L[i], j) := by
  induction L generalizing i with
  | nil => intro hi; simp at hi
  | cons a L ih =>
    intro hi
    rw [List.flatMap_cons]
    have hlen : ((List.range n).map (fun b => (a, b))).length = n := by simp
    rcases i with _ | i
    · rw [List.getElem?_append_left (by simpa using hj)]
      simp [List.getElem?_range hj]
    · have harith : (i + 1) * n + j = n + (i * n + j) := by
        rw [Nat.succ_mul]; omega
      rw [harith, List.getElem?_append_right (by rw [hlen]; omega), hlen]
      have harith2 : n + (i * n + j) - n = i * n + j := by omega
      rw [harith2, ih i (by simpa using hi)]
      simp

lemma gridRowMajor_length (n : ℕ) : (gridRowMajor n).length = n * n := by
  unfold gridRowMajor
  rw [flatMapGrid_length _ _ n (fun a => by simp)]
  simp

lemma gridColMajor_length (n : ℕ) : (gridColMajor n).length = n * n := by
  unfold gridColMajor
  rw [flatMapGrid_length _ _ n (fun a => by simp)]
  simp

lemma gridRowMajor_getElem (n i j : ℕ) (hi : i < n) (hj : j < n) :
    (gridRowMajor n)[i * n + j]? = some (i, j) := by
  have := flatMapGrid_getElem (List.range n) n i j hj (by simpa using hi)
  simpa [gridRowMajor] using this

lemma mem_gridRowMajor (n : ℕ) (p : ℕ × ℕ) :
    p ∈ gridRowMajor n ↔ p.1 < n ∧ p.2 < n := by
  rcases p with ⟨i, j⟩
  unfold gridRowMajor
  rw [List.mem_flatMap]
  constructor
  · rintro ⟨a, ha, hm⟩
    rw [List.mem_map] at hm
    rcases hm with ⟨b, hb, hab⟩
    cases hab
    exact ⟨by simpa using ha, by simpa using hb⟩
  · rintro ⟨h1, h2⟩
    exact ⟨i, by simpa using h1, List.mem_map.mpr ⟨j, by simpa using h2, rfl⟩⟩

lemma mem_gridColMajor (n : ℕ) (p : ℕ × ℕ) :
    p ∈ gridColMajor n ↔ p.1 < n ∧ p.2 < n := by
  rcases p with ⟨i, j⟩
  unfold gridColMajor
  rw [List.mem_flatMap]
  constructor
  · rintro ⟨a, ha, hm⟩
    rw [List.mem_map] at hm
    rcases hm with ⟨b, hb, hab⟩
    cases hab
    exact ⟨by simpa using hb, by simpa using ha⟩
  · rintro ⟨h1, h2⟩
    exact ⟨j, by simpa using h2, List.mem_map.mpr ⟨i, by simpa using h1, rfl⟩⟩

lemma toFinset_gridRowMajor_eq_col (n : ℕ) :
    (gridRowMajor n).toFinset = (gridColMajor n).toFinset := by
  ext p
  simp [List.mem_toFinset, mem_gridRowMajor, mem_gridColMajor]

/-! ### Accumulation lemmas over a swept pair list -/

section FoldLemmas

variable (G : Mat2) (hdec ndec : Point → Point) (d : Point)

lemma foldl_latticePoints (L : List (ℕ × ℕ)) (s : SweepState) :
    (L.foldl (processPair G hdec ndec d) s).latticePoints
      = s.latticePoints ++ L.map (decOf G hdec d) := by
  induction L generalizing s with
  | nil => simp
  | cons p L ih =>
    rw [List.foldl_cons, ih, processPair_latticePoints]
    simp

lemma foldl_mismatches (L : List (ℕ × ℕ)) (s : SweepState) :
    (L.foldl (processPair G hdec ndec d) s).mismatches
      = s.mismatches ++ L.filterMap (classifyMismatch G hdec ndec d) := by
  induction L generalizing s with
  | nil => simp
  | cons p L ih =>
    rw [List.foldl_cons, ih, processPair_mismatches, List.filterMap_cons]
    cases classifyMismatch G hdec ndec d p <;> simp

lemma foldl_pointMap_dup_length (L : List (ℕ × ℕ)) (s : SweepState) :
    (L.foldl (processPair G hdec ndec d) s).pointMap.length
        + (L.foldl (processPair G hdec ndec d) s).duplicates.length
      = s.pointMap.length + s.duplicates.length + L.length := by
  induction L generalizing s with
  | nil => simp
  | cons p L ih =>
    rw [List.foldl_cons, ih]
    have hm := processPair_pointMap G hdec ndec d s p
    have hd := processPair_duplicates G hdec ndec d s p
    cases hml : mapLookup s.pointMap (roundOf G hdec d p) <;>
      rw [hml] at hm hd <;> simp [hm, hd] <;> omega

lemma mapLookup_none_iff (m : List (Point × (ℕ × ℕ))) (k : Point) :
    mapLookup m k = none ↔ k ∉ m.map Prod.fst := by
  induction m with
  | nil => simp [mapLookup]
  | cons e m ih =>
    rcases e with ⟨k2, v⟩
    by_cases h : k2 = k
    · subst h; simp [mapLookup]
    · have h2 : k ≠ k2 := fun he => h he.symm
      simp [mapLookup, h, ih, h2]

lemma mapLookup_append (m1 m2 : List (Point × (ℕ × ℕ))) (k : Point) :
    mapLookup (m1 ++ m2) k
      = match mapLookup m1 k with
        | some v => some v
        | none => mapLookup m2 k := by
  induction m1 with
  | nil => simp [mapLookup]
  | cons e m1 ih =>
    rcases e with ⟨k2, v⟩
    by_cases h : k2 = k <;> simp [mapLookup, h, ih]

lemma foldl_mapLookup (L : List (ℕ × ℕ)) (s : SweepState) (k : Point) :
    mapLookup (L.foldl (processPair G hdec ndec d) s).pointMap k
      = match mapLookup s.pointMap k with
        | some v => some v
        | none => L.find? (fun p => decide (roundOf G hdec d p = k)) := by
  induction L generalizing s with
  | nil => cases h : mapLookup s.pointMap k <;> simp [h]
  | cons p L ih =>
    rw [List.foldl_cons, ih]
    have hm := processPair_pointMap G hdec ndec d s p
    cases hml : mapLookup s.pointMap (roundOf G hdec d p) <;> rw [hml] at hm
    · rw [hm, mapLookup_append]
      cases hsk : mapLookup s.pointMap k
      · by_cases hkr : roundOf G hdec d p = k
        · simp [mapLookup, hkr, List.find?_cons, hkr]
        · simp only [mapLookup, if_neg hkr]
          rw [List.find?_cons]
          simp [hkr]
      · simp [hsk]
    · rw [hm]
      cases hsk : mapLookup s.pointMap k
      · have hkr : roundOf G hdec d p ≠ k := by
          intro he; rw [he] at hml; rw [hsk] at hml; exact Option.noConfusion hml
        rw [List.find?_cons]
        simp [hkr, hsk]
      · simp [hsk]

lemma foldl_keys_toFinset (L : List (ℕ × ℕ)) (s : SweepState) :
    ((L.foldl (processPair G hdec ndec d) s).pointMap.map Prod.fst).toFinset
      = (s.pointMap.map Prod.fst).toFinset
          ∪ (L.map (roundOf G hdec d)).toFinset := by
  induction L generalizing s with
  | nil => simp
  | cons p L ih =>
    rw [List.foldl_cons, ih]
    cases hml : mapLookup s.pointMap (roundOf G hdec d p) with
    | none =>
      rw [processPair_pointMap_none G hdec ndec d s p hml, List.map_append,
        List.toFinset_append]
      have h1 : ((([(roundOf G hdec d p, p)]).map Prod.fst).toFinset : Finset Point)
          = {roundOf G hdec d p} := by simp
      rw [h1, List.map_cons, List.toFinset_cons, Finset.insert_eq,
        Finset.union_assoc]
    | some v =>
      have hmem : roundOf G hdec d p ∈ (s.pointMap.map Prod.fst).toFinset := by
        rw [List.mem_toFinset]
        by_contra hno
        rw [← mapLookup_none_iff] at hno
        rw [hno] at hml
        exact Option.noConfusion hml
      rw [processPair_pointMap_some G hdec ndec d s p v hml, List.map_cons,
        List.toFinset_cons, Finset.insert_eq]
      ext x
      simp only [Finset.mem_union, Finset.mem_singleton]
      constructor
      · rintro (h | h)
        · exact Or.inl h
        · exact Or.inr (Or.inr h)
      · rintro (h | h | h)
        · exact Or.inl h
        · subst h; exact Or.inl hmem
        · exact Or.inr h

lemma foldl_keys_nodup (L : List (ℕ × ℕ)) (s : SweepState)
    (h : (s.pointMap.map Prod.fst).Nodup) :
    ((L.foldl (processPair G hdec ndec d) s).pointMap.map Prod.fst).Nodup := by
  induction L generalizing s with
  | nil => exact h
  | cons p L ih =>
    rw [List.foldl_cons]
    apply ih
    cases hml : mapLookup s.pointMap (roundOf G hdec d p) with
    | none =>
      have hno : roundOf G hdec d p ∉ s.pointMap.map Prod.fst :=
        (mapLookup_none_iff _ _).mp hml
      rw [processPair_pointMap_none G hdec ndec d s p hml]
      simp [List.nodup_append, h, hno]
    | some v =>
      rw [processPair_pointMap_some G hdec ndec d s p v hml]
      exact h

lemma foldl_pointMap_length_card (L : List (ℕ × ℕ)) :
    (L.foldl (processPair G hdec ndec d) initState).pointMap.length
      = (L.map (roundOf G hdec d)).toFinset.card := by
  have hnd := foldl_keys_nodup G hdec ndec d L initState (by simp [initState])
  have hfs := foldl_keys_toFinset G hdec ndec d L initState
  have h0 : ((initState.pointMap.map Prod.fst).toFinset : Finset Point) = ∅ := by
    simp [initState]
  rw [h0, Finset.empty_union] at hfs
  have hcard := List.toFinset_card_of_nodup hnd
  rw [hfs] at hcard
  calc (L.foldl (processPair G hdec ndec d) initState).pointMap.length
      = ((L.foldl (processPair G hdec ndec d) initState).pointMap.map
          Prod.fst).length := (List.length_map _ _).symm
    _ = (L.map (roundOf G hdec d)).toFinset.card := hcard.symm

lemma foldl_dup_length_eq (L : List (ℕ × ℕ)) :
    (L.foldl (processPair G hdec ndec d) initState).duplicates.length
      = L.length - (L.map (roundOf G hdec d)).toFinset.card := by
  have h1 := foldl_pointMap_dup_length G hdec ndec d L initState
  have h2 := foldl_pointMap_length_card G hdec ndec d L
  have e1 : initState.pointMap.length = 0 := rfl
  have e2 : initState.duplicates.length = 0 := rfl
  rw [e1, e2] at h1
  omega

end FoldLemmas

lemma sweep_latticePoints (G : Mat2) (hdec ndec : Point → Point) (d : Point)
    (q M : ℕ) :
    (sweep G hdec ndec d q M).latticePoints
      = (gridRowMajor (q ^ M)).map (decOf G hdec d) := by
  unfold sweep
  rw [foldl_latticePoints]
  simp [initState]

lemma pow_two_mul_eq (q M : ℕ) : q ^ M * q ^ M = q ^ (2 * M) := by
  rw [two_mul, pow_add]

/-! ### Example collaborators used to instantiate the oracle parameters -/

/-- The identity generator matrix, a concrete instance of the opaque `G`. -/
def Gid : Mat2 := ⟨1, 0, 0, 1⟩

/-- A decode oracle that shifts the first coordinate by `5e-6`. -/
def shiftDec : Point → Point := fun p => (p.1 + 1/200000, p.2)

/-- A decode oracle that shifts both coordinates by `1`. -/
def farDec : Point → Point := fun p => (p.1 + 1, p.2 + 1)

/-- A Voronoi oracle returning no vertices. -/
def vorNone : List Point → ℕ → List Point := fun _ _ => []

/-- The sweep state accumulated after processing a list of index pairs. -/
def sweepAcc (G : Mat2) (hdec ndec : Point → Point) (d : Point)
    (pre : List (ℕ × ℕ)) : SweepState :=
  pre.foldl (processPair G hdec ndec d) initState

lemma sweep_eq_sweepAcc (G : Mat2) (hdec ndec : Point → Point) (d : Point)
    (q M : ℕ) : sweep G hdec ndec d q M = sweepAcc G hdec ndec d (gridRowMajor (q ^ M)) :=
  rfl

lemma sweepAcc_mapLookup (G : Mat2) (hdec ndec : Point → Point) (d : Point)
    (pre : List (ℕ × ℕ)) (k : Point) :
    mapLookup (sweepAcc G hdec ndec d pre).pointMap k
      = pre.find? (fun p => decide (roundOf G hdec d p = k)) := by
  unfold sweepAcc
  rw [foldl_mapLookup]
  rfl

/-- A decode oracle collapsing every input to the origin. -/
def constDec : Point → Point := fun _ => (0, 0)

/-! ### Claims -/

/-- C1: for every `q ≥ 2` and `M ≥ 1`, `compare_codebooks` enumerates all
`(q^M)²` index pairs `(i, j)` with `i, j < q^M` in row-major order (the pair
`(i, j)` sits at position `i·q^M + j`), and appends the hierarchical
quantizer's decoded point for every pair regardless of its classification, so
the codebook sequence has exactly `q^(2M)` entries and the exact-equality
unique-point count is at most `q^(2M)`. -/
theorem C1_row_major_enumeration_and_codebook_size (G : Mat2)
    (hdec ndec : Point → Point) (d : Point) (q M : ℕ)
    (hq : 2 ≤ q) (hM : 1 ≤ M) :
    (∀ i j : ℕ, i < q ^ M → j < q ^ M →
        (gridRowMajor (q ^ M))[i * q ^ M + j]? = some (i, j)) ∧
    (gridRowMajor (q ^ M)).length = q ^ (2 * M) ∧
    (sweep G hdec ndec d q M).latticePoints
      = (gridRowMajor (q ^ M)).map (decOf G hdec d) ∧
    (sweep G hdec ndec d q M).latticePoints.length = q ^ (2 * M) ∧
    (mkReport (sweep G hdec ndec d q M)).uniqueCount ≤ q ^ (2 * M) := by
  have hlen : (gridRowMajor (q ^ M)).length = q ^ (2 * M) := by
    rw [gridRowMajor_length, pow_two_mul_eq]
  have hpts := sweep_latticePoints G hdec ndec d q M
  have hptslen : (sweep G hdec ndec d q M).latticePoints.length = q ^ (2 * M) := by
    rw [hpts, List.length_map, hlen]
  refine ⟨fun i j hi hj => gridRowMajor_getElem (q ^ M) i j hi hj, hlen, hpts,
    hptslen, ?_⟩
  have hsub : (sweep G hdec ndec d q M).latticePoints.dedup.length
      ≤ (sweep G hdec ndec d q M).latticePoints.length :=
    (List.dedup_sublist _).length_le
  calc (mkReport (sweep G hdec ndec d q M)).uniqueCount
      = (sweep G hdec ndec d q M).latticePoints.dedup.length := rfl
    _ ≤ (sweep G hdec ndec d q M).latticePoints.length := hsub
    _ = q ^ (2 * M) := hptslen

/-- Witness for C1 at the concrete run parameters `q = 4`, `M = 2` with the
identity generator, identity round trips and zero perturbation. -/
theorem C1_witness :
    (2 ≤ 4 ∧ 1 ≤ 2) ∧
    ((∀ i j : ℕ, i < 4 ^ 2 → j < 4 ^ 2 →
        (gridRowMajor (4 ^ 2))[i * 4 ^ 2 + j]? = some (i, j)) ∧
    (gridRowMajor (4 ^ 2)).length = 4 ^ (2 * 2) ∧
    (sweep Gid id id (0, 0) 4 2).latticePoints
      = (gridRowMajor (4 ^ 2)).map (decOf Gid id (0, 0)) ∧
    (sweep Gid id id (0, 0) 4 2).latticePoints.length = 4 ^ (2 * 2) ∧
    (mkReport (sweep Gid id id (0, 0) 4 2)).uniqueCount ≤ 4 ^ (2 * 2)) :=
  ⟨⟨by norm_num, by norm_num⟩,
    C1_row_major_enumeration_and_codebook_size Gid id id (0, 0) 4 2
      (by norm_num) (by norm_num)⟩

/-- C2 (amended): a MismatchRecord is retained for a swept point if and only
if the flat decode reproduces the perturbed input within numpy's
`np.allclose(·, ·, atol=1e-7)` test — elementwise `1e-7 + 1e-5·|reference|`,
the default relative term included — and the hierarchical decode fails that
same test against the flat decode; when the flat decode fails its round-trip
check the point is classified neither as a match nor as a mismatch, but its
hierarchical decode is still appended to the codebook. -/
theorem C2_mismatch_classification (G : Mat2) (hdec ndec : Point → Point)
    (d : Point) (s : SweepState) (ij : ℕ × ℕ) :
    ((processPair G hdec ndec d s ij).mismatches
        = s.mismatches
            ++ [(pointOf G d ij, decOf G hdec d ij, ndec (pointOf G d ij))]
      ↔ npAllclose (ndec (pointOf G d ij)) (pointOf G d ij)
          ∧ ¬ npAllclose (decOf G hdec d ij) (ndec (pointOf G d ij))) ∧
    (¬ npAllclose (ndec (pointOf G d ij)) (pointOf G d ij) →
        (processPair G hdec ndec d s ij).mismatches = s.mismatches ∧
        (processPair G hdec ndec d s ij).matched = s.matched) ∧
    (processPair G hdec ndec d s ij).latticePoints
      = s.latticePoints ++ [decOf G hdec d ij] := by
  refine ⟨?_, ?_, processPair_latticePoints G hdec ndec d s ij⟩
  · rw [processPair_mismatches]
    constructor
    · intro h
      have h2 := List.append_cancel_left h
      by_cases hc : npAllclose (ndec (pointOf G d ij)) (pointOf G d ij)
          ∧ ¬ npAllclose (decOf G hdec d ij) (ndec (pointOf G d ij))
      · exact hc
      · unfold classifyMismatch at h2
        rw [if_neg hc] at h2
        simp at h2
    · intro hc
      unfold classifyMismatch
      rw [if_pos hc]
      rfl
  · intro hnc
    constructor
    · rw [processPair_mismatches]
      unfold classifyMismatch
      rw [if_neg (fun hc => hnc hc.1)]
      simp
    · rw [processPair_matched]
      rw [if_neg (fun hc => hnc hc.1)]
      simp

/-- C2 counterexample: at index pair `(1, 0)` with the identity generator,
zero perturbation, an exactly round-tripping flat decode and a hierarchical
decode shifted by `5e-6`: the flat decode equals the perturbed input exactly,
the hierarchical decode differs from the flat decode by more than the
absolute tolerance `1e-7` — so the claim as stated demands a MismatchRecord —
yet the code retains none, because `np.allclose`'s default relative term
`1e-5·|flat decode|` absorbs the difference. -/
theorem C2_counterexample :
    id (pointOf Gid (0, 0) (1, 0)) = pointOf Gid (0, 0) (1, 0) ∧
    |(decOf Gid shiftDec (0, 0) (1, 0)).1
        - (id (pointOf Gid (0, 0) (1, 0))).1| > atol ∧
    (processPair Gid shiftDec id (0, 0) initState (1, 0)).mismatches = [] := by
  have hp : pointOf Gid (0, 0) (1, 0) = ((1 : ℚ), (0 : ℚ)) := by
    simp [pointOf, Gid, Mat2.mulVec, Prod.ext_iff]
  have hdecv : decOf Gid shiftDec (0, 0) (1, 0) = ((1 + 1/200000 : ℚ), (0 : ℚ)) := by
    rw [decOf, hp]
    simp [shiftDec]
  refine ⟨rfl, ?_, ?_⟩
  · rw [hdecv, hp]
    rw [gt_iff_lt, lt_abs]
    left
    rw [atol]
    norm_num
  · rw [processPair_mismatches]
    unfold classifyMismatch
    rw [if_neg ?_]
    · rfl
    · rintro ⟨-, hno⟩
      apply hno
      rw [hdecv, hp]
      constructor <;>
        simp only [npClose, atol, rtol, abs_one, abs_zero] <;>
        rw [abs_sub_le_iff] <;> constructor <;> norm_num

/-- Witness for C2 at a pair where a mismatch is retained: the hierarchical
decode `farDec` is off by `1` in each coordinate, far beyond the tolerance. -/
theorem C2_witness :
    (processPair Gid farDec id (0, 0) initState (0, 0)).mismatches
      = initState.mismatches
          ++ [(pointOf Gid (0, 0) (0, 0), decOf Gid farDec (0, 0) (0, 0),
                id (pointOf Gid (0, 0) (0, 0)))] := by
  have hp : pointOf Gid (0, 0) (0, 0) = ((0 : ℚ), (0 : ℚ)) := by
    simp [pointOf, Gid, Mat2.mulVec, Prod.ext_iff]
  refine (C2_mismatch_classification Gid farDec id (0, 0) initState (0, 0)).1.mpr
    ⟨?_, ?_⟩
  · rw [hp]
    constructor <;>
      simp only [npClose, atol, rtol, abs_zero, id_eq] <;>
      rw [abs_sub_le_iff] <;> constructor <;> norm_num
  · rw [decOf, hp]
    rintro ⟨h1, -⟩
    rw [show farDec ((0 : ℚ), (0 : ℚ)) = ((1 : ℚ), (1 : ℚ)) by simp [farDec]] at h1
    simp only [npClose, atol, rtol, abs_zero, id_eq] at h1
    rw [abs_sub_le_iff] at h1
    norm_num at h1

/-- C3: after any processed prefix of the sweep, the running map sends each
rounded point to the first index pair of the prefix whose hierarchical decode
rounds (9 decimals) to it; a DuplicateRecord is emitted for the next pair if
and only if some earlier pair has an equal rounded decode, the record stores
the first-seen pair together with the later pair, and the 9-decimal rounding
plays no role in the mismatch classification, which depends only on the
`np.allclose` tolerance test. -/
theorem C3_duplicate_records_first_seen (G : Mat2) (hdec ndec : Point → Point)
    (d : Point) (pre : List (ℕ × ℕ)) (ij : ℕ × ℕ) :
    (∀ k : Point, mapLookup (sweepAcc G hdec ndec d pre).pointMap k
        = pre.find? (fun p => decide (roundOf G hdec d p = k))) ∧
    ((processPair G hdec ndec d (sweepAcc G hdec ndec d pre) ij).duplicates
        ≠ (sweepAcc G hdec ndec d pre).duplicates
      ↔ ∃ p ∈ pre, roundOf G hdec d p = roundOf G hdec d ij) ∧
    (∀ v : ℕ × ℕ,
      mapLookup (sweepAcc G hdec ndec d pre).pointMap (roundOf G hdec d ij)
          = some v →
        (processPair G hdec ndec d (sweepAcc G hdec ndec d pre) ij).duplicates
          = (sweepAcc G hdec ndec d pre).duplicates
              ++ [(roundOf G hdec d ij, v, ij)]) ∧
    (processPair G hdec ndec d (sweepAcc G hdec ndec d pre) ij).mismatches
      = (sweepAcc G hdec ndec d pre).mismatches
          ++ (classifyMismatch G hdec ndec d ij).toList := by
  refine ⟨sweepAcc_mapLookup G hdec ndec d pre, ?_, ?_, ?_⟩
  · cases hml : mapLookup (sweepAcc G hdec ndec d pre).pointMap
        (roundOf G hdec d ij) with
    | none =>
      rw [processPair_duplicates_none G hdec ndec d _ ij hml]
      have hfind := sweepAcc_mapLookup G hdec ndec d pre (roundOf G hdec d ij)
      rw [hml] at hfind
      have hnone := List.find?_eq_none.mp hfind.symm
      constructor
      · intro h; exact absurd rfl h
      · rintro ⟨p, hp, hr⟩
        exact absurd (by simpa using hr) (by simpa using hnone p hp)
    | some v =>
      rw [processPair_duplicates_some G hdec ndec d _ ij v hml]
      have hfind := sweepAcc_mapLookup G hdec ndec d pre (roundOf G hdec d ij)
      rw [hml] at hfind
      have hsome : (pre.find?
          (fun p => decide (roundOf G hdec d p = roundOf G hdec d ij))).isSome := by
        rw [← hfind]; rfl
      rw [List.find?_isSome] at hsome
      constructor
      · intro _
        rcases hsome with ⟨p, hp, hr⟩
        exact ⟨p, hp, by simpa using hr⟩
      · intro _
        simp
  · intro v hml
    exact processPair_duplicates_some G hdec ndec d _ ij v hml
  · exact processPair_mismatches G hdec ndec d _ ij

/-- Witness for C3: with a decode oracle collapsing every point to the
origin, the second swept pair is reported as a duplicate of the first. -/
theorem C3_witness :
    (processPair Gid constDec id (0, 0)
        (sweepAcc Gid constDec id (0, 0) [(0, 0)]) (0, 1)).duplicates
      ≠ (sweepAcc Gid constDec id (0, 0) [(0, 0)]).duplicates :=
  (C3_duplicate_records_first_seen Gid constDec id (0, 0) [(0, 0)] (0, 1)).2.1.mpr
    ⟨(0, 0), by simp, rfl⟩

lemma foldl_min_sqDist (x : Point) (l : List Point) (b : Point) :
    sqDist (l.foldl (fun best p => if sqDist p x < sqDist best x then p else best) b) x
        ≤ sqDist b x ∧
    ∀ p ∈ l,
      sqDist (l.foldl (fun best p => if sqDist p x < sqDist best x then p else best) b) x
        ≤ sqDist p x := by
  induction l generalizing b with
  | nil => simp
  | cons c l ih =>
    rw [List.foldl_cons]
    by_cases h : sqDist c x < sqDist b x
    · rw [if_pos h]
      rcases ih c with ⟨h1, h2⟩
      refine ⟨le_trans h1 (le_of_lt h), ?_⟩
      intro p hp
      rcases List.mem_cons.mp hp with he | hm
      · subst he; exact h1
      · exact h2 p hm
    · rw [if_neg h]
      rcases ih b with ⟨h1, h2⟩
      refine ⟨h1, ?_⟩
      intro p hp
      rcases List.mem_cons.mp hp with he | hm
      · subst he; exact le_trans h1 (not_lt.mp h)
      · exact h2 p hm

lemma nearestPoint_le (cb : List Point) (x : Point) (c : Point) (hc : c ∈ cb) :
    sqDist (nearestPoint cb x) x ≤ sqDist c x := by
  cases cb with
  | nil => simp at hc
  | cons c0 cs =>
    rcases List.mem_cons.mp hc with he | hm
    · subst he; exact (foldl_min_sqDist x cs c).1
    · exact (foldl_min_sqDist x cs c0).2 c hm

/-- C4: for every `q ≥ 2` and `M ≥ 1`, the flat quantizer that
`compare_codebooks` compares against is constructed with alphabet size
exactly `q^M · (1 − r)` where `r = (1 − q^(1−M)) / (q − 1)`; equivalently
`(q^(M+1) − 2·q^M + q) / (q − 1)`. -/
theorem C4_flat_alphabet_size (q M : ℕ) (hq : 2 ≤ q) (hM : 1 ≤ M) :
    r_q q M = some ((1 - (q : ℚ) ^ ((1 : ℤ) - (M : ℤ))) / ((q : ℚ) - 1)) ∧
    flatAlphaOf q M
      = some ((q : ℚ) ^ M *
          (1 - (1 - (q : ℚ) ^ ((1 : ℤ) - (M : ℤ))) / ((q : ℚ) - 1))) ∧
    flatAlphaOf q M
      = some (((q : ℚ) ^ (M + 1) - 2 * (q : ℚ) ^ M + q) / ((q : ℚ) - 1)) := by
  have hq0 : (q : ℚ) ≠ 0 := Nat.cast_ne_zero.mpr (by omega)
  have hq2 : (2 : ℚ) ≤ (q : ℚ) := by exact_mod_cast hq
  have hq1 : (q : ℚ) - 1 ≠ 0 := by intro h; linarith
  have hr : r_q q M
      = some ((1 - (q : ℚ) ^ ((1 : ℤ) - (M : ℤ))) / ((q : ℚ) - 1)) := by
    unfold r_q
    rw [if_neg (by rintro ⟨h, -⟩; omega), if_neg (by omega)]
  have halpha : flatAlphaOf q M
      = some ((q : ℚ) ^ M *
          (1 - (1 - (q : ℚ) ^ ((1 : ℤ) - (M : ℤ))) / ((q : ℚ) - 1))) := by
    unfold flatAlphaOf
    rw [hr]
    rfl
  have hz : (q : ℚ) ^ M * (q : ℚ) ^ ((1 : ℤ) - (M : ℤ)) = (q : ℚ) := by
    rw [← zpow_natCast (q : ℚ) M, ← zpow_add₀ hq0]
    norm_num
  refine ⟨hr, halpha, ?_⟩
  rw [halpha]
  congr 1
  rw [eq_div_iff hq1]
  field_simp
  linear_combination hz

/-- Witness for C4 at the run parameters `q = 4`, `M = 2`. -/
theorem C4_witness :
    flatAlphaOf 4 2
      = some (((4 : ℚ) ^ (2 + 1) - 2 * (4 : ℚ) ^ 2 + 4) / ((4 : ℚ) - 1)) :=
  (C4_flat_alphabet_size 4 2 (by norm_num) (by norm_num)).2.2

/-- C5 counterexample: for `q = 4`, `M = 2` the code constructs the flat
quantizer with alphabet size `(q^M)·(1 − r) = 16 · 0.75 = 12`, not
`256 · 0.75 = 192` as the claim states. -/
theorem C5_counterexample :
    flatAlphaOf 4 2 = some 12 ∧ flatAlphaOf 4 2 ≠ some 192 := by
  have h : flatAlphaOf 4 2 = some 12 := by
    unfold flatAlphaOf r_q
    norm_num
  refine ⟨h, ?_⟩
  rw [h]
  intro hc
  have := Option.some.inj hc
  norm_num at this

/-- C5 (amended): for `q = 4`, `M = 2` the overlap fraction is `r = 0.25`
and the flat quantizer of the comparison run is constructed with alphabet
size `16 · 0.75 = 12`; the perturbed origin (index pair `(0,0)` maps to the
perturbation vector itself) decodes within `1e-7` of itself under the
spec-modelled flat quantizer (a nearest-codebook-point projection whose
codebook contains the origin), provided the perturbation is no larger than
the tolerance. -/
theorem C5_run_parameters_and_origin_decode (cb : List Point) (d : Point)
    (hcb : ((0 : ℚ), (0 : ℚ)) ∈ cb)
    (hd : sqDist ((0 : ℚ), (0 : ℚ)) d ≤ atol ^ 2) :
    r_q 4 2 = some (1/4) ∧
    flatAlphaOf 4 2 = some 12 ∧
    (∀ G : Mat2, pointOf G d (0, 0) = d) ∧
    |(nearestPoint cb d).1 - d.1| ≤ atol ∧
    |(nearestPoint cb d).2 - d.2| ≤ atol := by
  have hr : r_q 4 2 = some (1/4) := by
    unfold r_q
    norm_num
  have ha : flatAlphaOf 4 2 = some 12 := by
    unfold flatAlphaOf
    rw [hr]
    norm_num
  have hnear := nearestPoint_le cb d _ hcb
  have hsq : sqDist (nearestPoint cb d) d ≤ atol ^ 2 := le_trans hnear hd
  have hatol : (0 : ℚ) < atol := by norm_num [atol]
  have h1 : ((nearestPoint cb d).1 - d.1) ^ 2 ≤ atol ^ 2 := by
    have := sq_nonneg ((nearestPoint cb d).2 - d.2)
    unfold sqDist at hsq
    nlinarith
  have h2 : ((nearestPoint cb d).2 - d.2) ^ 2 ≤ atol ^ 2 := by
    have := sq_nonneg ((nearestPoint cb d).1 - d.1)
    unfold sqDist at hsq
    nlinarith
  refine ⟨hr, ha, ?_, ?_, ?_⟩
  · intro G
    rcases d with ⟨d1, d2⟩
    simp [pointOf, Mat2.mulVec, Prod.ext_iff]
  · rw [abs_le]
    constructor <;> nlinarith
  · rw [abs_le]
    constructor <;> nlinarith

/-- Witness for C5 (amended) with the singleton codebook containing only the
origin and zero perturbation. -/
theorem C5_witness :
    r_q 4 2 = some (1/4) ∧
    flatAlphaOf 4 2 = some 12 ∧
    (∀ G : Mat2, pointOf G ((0 : ℚ), (0 : ℚ)) (0, 0) = ((0 : ℚ), (0 : ℚ))) ∧
    |(nearestPoint [((0 : ℚ), (0 : ℚ))] ((0 : ℚ), (0 : ℚ))).1 - (0 : ℚ)| ≤ atol ∧
    |(nearestPoint [((0 : ℚ), (0 : ℚ))] ((0 : ℚ), (0 : ℚ))).2 - (0 : ℚ)| ≤ atol :=
  C5_run_parameters_and_origin_decode [((0 : ℚ), (0 : ℚ))] ((0 : ℚ), (0 : ℚ))
    (by simp) (by norm_num [sqDist, atol])

/-- C6 counterexample: invoking `compare_codebooks` with `q = 2`, `M = 0`
is not rejected: the run proceeds, and the sweep processes the single grid
point `(0, 0)` — its decode is computed and appended — contradicting the
claim that the run aborts before the grid sweep with no grid point decoded. -/
theorem C6_counterexample :
    (compare_codebooks Gid id id vorNone (0, 0) 2 0 false).isSome = true ∧
    (sweep Gid id id (0, 0) 2 0).latticePoints.length = 1 := by
  have hr : r_q 2 0 = some (-1) := by
    unfold r_q
    norm_num
  constructor
  · simp [compare_codebooks, hr]
  · rw [sweep_latticePoints, List.length_map, pow_zero, gridRowMajor_length]
    norm_num

/-- C6 (amended): `q = 1` is rejected before the grid sweep begins — the
division by zero while computing `r` aborts the run before any quantizer is
built or any grid point is decoded — but `M = 0` with `q ≥ 2` is not
rejected: the run proceeds and short-circuits to a single-point sweep whose
one grid point `(0, 0)` is still encoded and decoded. -/
theorem C6_degenerate_parameters (G : Mat2) (hdec ndec : Point → Point)
    (vorCell : List Point → ℕ → List Point) (d : Point) (q M : ℕ)
    (with_plot : Bool) (hq : 2 ≤ q) :
    compare_codebooks G hdec ndec vorCell d 1 M with_plot = none ∧
    r_q 1 M = none ∧
    (compare_codebooks G hdec ndec vorCell d q 0 with_plot).isSome = true ∧
    (sweep G hdec ndec d q 0).latticePoints = [decOf G hdec d (0, 0)] := by
  have hr1 : r_q 1 M = none := by
    unfold r_q
    simp
  have hr : r_q q 0
      = some ((1 - (q : ℚ) ^ ((1 : ℤ) - ((0 : ℕ) : ℤ))) / ((q : ℚ) - 1)) := by
    unfold r_q
    rw [if_neg (by rintro ⟨-, h⟩; omega), if_neg (by omega)]
  refine ⟨by simp [compare_codebooks, hr1], hr1, by simp [compare_codebooks, hr], ?_⟩
  rw [sweep_latticePoints]
  have hg : gridRowMajor (q ^ 0) = [(0, 0)] := by
    rw [pow_zero]
    decide
  rw [hg]
  rfl

/-- Witness for C6 at `q = 2`, `M = 0` (and `q = 1` with `M = 5`). -/
theorem C6_witness :
    compare_codebooks Gid id id vorNone (0, 0) 1 5 false = none ∧
    r_q 1 5 = none ∧
    (compare_codebooks Gid id id vorNone (0, 0) 2 0 false).isSome = true ∧
    (sweep Gid id id (0, 0) 2 0).latticePoints = [decOf Gid id (0, 0) (0, 0)] :=
  C6_degenerate_parameters Gid id id vorNone (0, 0) 2 5 false (by norm_num)

/-- C7: the cross-validation report — unique count, duplicate list, mismatch
list — is computed from the sweep alone and emitted before rendering is
attempted: the report of a run with plotting enabled equals the report with
plotting disabled; the origin-cell lookup fails exactly when no decoded
point lies within the coarse componentwise tolerance `1e-2` of the origin,
and in that case the run still returns the full report with an empty
rendering result. -/
theorem C7_report_valid_without_rendering (G : Mat2)
    (hdec ndec : Point → Point) (vorCell : List Point → ℕ → List Point)
    (d : Point) (q M : ℕ) :
    ((compare_codebooks G hdec ndec vorCell d q M true).map Prod.fst
      = (compare_codebooks G hdec ndec vorCell d q M false).map Prod.fst) ∧
    (findOriginIdx (sweep G hdec ndec d q M).latticePoints = none
      ↔ ∀ p ∈ (sweep G hdec ndec d q M).latticePoints,
          ¬ (|p.1| ≤ 1/100 ∧ |p.2| ≤ 1/100)) ∧
    (∀ r : ℚ, r_q q M = some r →
      findOriginIdx (sweep G hdec ndec d q M).latticePoints = none →
      compare_codebooks G hdec ndec vorCell d q M true
        = some (mkReport (sweep G hdec ndec d q M), none)) := by
  refine ⟨?_, ?_, ?_⟩
  · cases hr : r_q q M with
    | none => simp [compare_codebooks, hr]
    | some r => simp [compare_codebooks, hr]
  · unfold findOriginIdx
    rw [List.findIdx?_eq_none_iff]
    constructor
    · intro h p hp hc
      have := h p hp
      simp only [Bool.and_eq_false_iff, decide_eq_false_iff_not, not_le] at this
      rcases this with h1 | h2
      · exact absurd hc.1 (not_le.mpr h1)
      · exact absurd hc.2 (not_le.mpr h2)
    · intro h p hp
      have := h p hp
      rw [Bool.and_eq_false_iff]
      by_cases h1 : |p.1| ≤ 1/100
      · right
        have h2 : ¬ |p.2| ≤ 1/100 := fun h2 => this ⟨h1, h2⟩
        simpa using h2
      · left
        simpa using h1
  · intro r hr hnone
    simp [compare_codebooks, hr, plot_with_voronoi, hnone]

/-- Witness for C7: a concrete run whose decoded points all lie far from the
origin, so rendering fails while the report is still produced. -/
theorem C7_witness :
    compare_codebooks Gid farDec id vorNone (0, 0) 2 1 true
      = some (mkReport (sweep Gid farDec id (0, 0) 2 1), none) := by
  have hr : r_q 2 1 = some 0 := by
    unfold r_q
    norm_num
  have hpts : (sweep Gid farDec id (0, 0) 2 1).latticePoints
      = [((1 : ℚ), (1 : ℚ)), (1, 2), (2, 1), (2, 2)] := by
    rw [sweep_latticePoints]
    have hg : gridRowMajor (2 ^ 1) = [(0, 0), (0, 1), (1, 0), (1, 1)] := by
      decide
    rw [hg]
    simp [decOf, pointOf, Gid, Mat2.mulVec, farDec, Prod.ext_iff]
    norm_num
  have hnone : findOriginIdx (sweep Gid farDec id (0, 0) 2 1).latticePoints
      = none := by
    apply (C7_report_valid_without_rendering Gid farDec id vorNone (0, 0)
      2 1).2.1.mpr
    rw [hpts]
    intro p hp
    simp only [List.mem_cons, List.not_mem_nil, or_false] at hp
    rcases hp with h | h | h | h <;> subst h <;>
      rintro ⟨h1, h2⟩ <;>
      rw [abs_le] at h1 <;>
      rcases h1 with ⟨h1a, h1b⟩ <;> norm_num at h1b
  exact (C7_report_valid_without_rendering Gid farDec id vorNone (0, 0)
    2 1).2.2 0 hr hnone

lemma r_q_bounds (q M : ℕ) (hq : 2 ≤ q) (hM : 1 ≤ M) (r : ℚ)
    (hr : r_q q M = some r) : 0 ≤ r ∧ r < 1 ∧ (0 < r ↔ 2 ≤ M) := by
  have hq1 : (1 : ℚ) < (q : ℚ) := by exact_mod_cast (by omega : 1 < q)
  have hq2 : (2 : ℚ) ≤ (q : ℚ) := by exact_mod_cast hq
  have hq0 : (0 : ℚ) < (q : ℚ) := lt_trans one_pos hq1
  have hden : (0 : ℚ) < (q : ℚ) - 1 := by linarith
  have hrval : r = (1 - (q : ℚ) ^ ((1 : ℤ) - (M : ℤ))) / ((q : ℚ) - 1) := by
    unfold r_q at hr
    rw [if_neg (by rintro ⟨h, -⟩; omega), if_neg (by omega)] at hr
    exact (Option.some.inj hr).symm
  have hzpos : (0 : ℚ) < (q : ℚ) ^ ((1 : ℤ) - (M : ℤ)) := zpow_pos hq0 _
  have hzle : (q : ℚ) ^ ((1 : ℤ) - (M : ℤ)) ≤ 1 :=
    zpow_le_one_of_nonpos₀ hq1.le (by omega)
  refine ⟨?_, ?_, ?_⟩
  · rw [hrval]
    exact div_nonneg (by linarith) hden.le
  · rw [hrval, div_lt_one hden]
    linarith
  · constructor
    · intro hrp
      by_contra hM2
      have hMeq : M = 1 := by omega
      subst hMeq
      have : ((1 : ℤ) - ((1 : ℕ) : ℤ)) = 0 := by norm_num
      rw [hrval, this, zpow_zero] at hrp
      simp at hrp
    · intro hM2
      have hzlt : (q : ℚ) ^ ((1 : ℤ) - (M : ℤ)) < 1 :=
        zpow_lt_one_of_neg₀ hq1 (by omega)
      rw [hrval]
      exact div_pos (by linarith) hden

lemma scalePoly_scalePoly (a b : ℚ) (l : List Point) :
    scalePoly a (scalePoly b l) = scalePoly (a * b) l := by
  unfold scalePoly
  rw [List.map_map]
  apply List.map_congr_left
  intro p _
  simp [mul_assoc]

lemma closePoly_scalePoly (c : ℚ) (l : List Point) :
    closePoly (scalePoly c l) = scalePoly c (closePoly l) := by
  cases l with
  | nil => rfl
  | cons v vs => simp [closePoly, scalePoly]

lemma closePoly_length_of_ne_nil (l : List Point) (h : l ≠ []) :
    (closePoly l).length = l.length + 1 := by
  cases l with
  | nil => exact absurd rfl h
  | cons v vs => simp [closePoly]

lemma closePoly_head_getLast_of_ne_nil (l : List Point) (h : l ≠ []) :
    (closePoly l).head? = (closePoly l).getLast? := by
  cases l with
  | nil => exact absurd rfl h
  | cons v vs =>
    show some v = (v :: (vs ++ [v])).getLast?
    rw [← List.cons_append, List.getLast?_concat]

lemma scalePoly_ne_nil (c : ℚ) (l : List Point) (h : l ≠ []) :
    scalePoly c l ≠ [] := by
  cases l with
  | nil => exact absurd rfl h
  | cons v vs => simp [scalePoly]

lemma scalePoly_length (c : ℚ) (l : List Point) :
    (scalePoly c l).length = l.length := List.length_map _ _

lemma between_scaled (k r x : ℚ) (hk : 0 < k) (hr0 : 0 ≤ r) :
    min (k * (1 - r) * x) (k * (1 + r) * x) ≤ k * x ∧
    k * x ≤ max (k * (1 - r) * x) (k * (1 + r) * x) ∧
    (0 < r → k * x ≠ 0 →
      min (k * (1 - r) * x) (k * (1 + r) * x) < k * x ∧
      k * x < max (k * (1 - r) * x) (k * (1 + r) * x)) := by
  rcases le_or_lt 0 x with hx | hx
  · have hkrx : 0 ≤ k * r * x := mul_nonneg (mul_nonneg hk.le hr0) hx
    have h1 : k * (1 - r) * x ≤ k * x := by nlinarith [hkrx]
    have h2 : k * x ≤ k * (1 + r) * x := by nlinarith [hkrx]
    refine ⟨le_trans (min_le_left _ _) h1, le_trans h2 (le_max_right _ _), ?_⟩
    intro hrp hne
    have hxp : 0 < x := by
      rcases lt_or_eq_of_le hx with h | h
      · exact h
      · exact absurd (by rw [← h, mul_zero]) hne
    have hkrxs : 0 < k * r * x := mul_pos (mul_pos hk hrp) hxp
    have h1s : k * (1 - r) * x < k * x := by nlinarith [hkrxs]
    have h2s : k * x < k * (1 + r) * x := by nlinarith [hkrxs]
    exact ⟨lt_of_le_of_lt (min_le_left _ _) h1s,
      lt_of_lt_of_le h2s (le_max_right _ _)⟩
  · have hkrx : 0 ≤ k * r * -x := mul_nonneg (mul_nonneg hk.le hr0) (by linarith)
    have h1 : k * (1 + r) * x ≤ k * x := by nlinarith [hkrx]
    have h2 : k * x ≤ k * (1 - r) * x := by nlinarith [hkrx]
    refine ⟨le_trans (min_le_right _ _) h1, le_trans h2 (le_max_left _ _), ?_⟩
    intro hrp _
    have hkrxs : 0 < k * r * -x := mul_pos (mul_pos hk hrp) (by linarith)
    have h1s : k * (1 + r) * x < k * x := by nlinarith [hkrxs]
    have h2s : k * x < k * (1 - r) * x := by nlinarith [hkrxs]
    exact ⟨lt_of_le_of_lt (min_le_right _ _) h1s,
      lt_of_lt_of_le h2s (le_max_left _ _)⟩

/-- C8 counterexample: in the actual run `q = 4`, `M = 2` (so `r = 1/4`),
a base Voronoi vertex lying on the y-axis — as the hexagonal `A2` cell has —
scales to inner, nominal and outer vertices whose x-components are all `0`,
so the nominal vertex does not lie strictly between the inner and outer
vertices componentwise. -/
theorem C8_counterexample :
    r_q 4 2 = some (1/4) ∧
    (shapingPolys 4 2 (1/4) [((0 : ℚ), (1 : ℚ))]).1 = [(0, 12), (0, 12)] ∧
    (shapingPolys 4 2 (1/4) [((0 : ℚ), (1 : ℚ))]).2.1 = [(0, 16), (0, 16)] ∧
    (shapingPolys 4 2 (1/4) [((0 : ℚ), (1 : ℚ))]).2.2 = [(0, 20), (0, 20)] ∧
    ¬ (min ((shapingPolys 4 2 (1/4) [((0 : ℚ), (1 : ℚ))]).1.headI.1)
          ((shapingPolys 4 2 (1/4) [((0 : ℚ), (1 : ℚ))]).2.2.headI.1)
        < (shapingPolys 4 2 (1/4) [((0 : ℚ), (1 : ℚ))]).2.1.headI.1) := by
  have hr : r_q 4 2 = some (1/4) := by
    unfold r_q
    norm_num
  have h1 : (shapingPolys 4 2 (1/4) [((0 : ℚ), (1 : ℚ))]).1
      = [(0, 12), (0, 12)] := by
    simp [shapingPolys, scalePoly, closePoly, Prod.ext_iff]
    norm_num
  have h2 : (shapingPolys 4 2 (1/4) [((0 : ℚ), (1 : ℚ))]).2.1
      = [(0, 16), (0, 16)] := by
    simp [shapingPolys, scalePoly, closePoly, Prod.ext_iff]
    norm_num
  have h3 : (shapingPolys 4 2 (1/4) [((0 : ℚ), (1 : ℚ))]).2.2
      = [(0, 20), (0, 20)] := by
    simp [shapingPolys, scalePoly, closePoly, Prod.ext_iff]
    norm_num
  refine ⟨hr, h1, h2, h3, ?_⟩
  rw [h1, h2, h3]
  simp

/-- C8 (amended): for a run with `q ≥ 2`, `M ≥ 1` and overlap fraction `r`
(so `0 ≤ r < 1`, with `r > 0` exactly when `M ≥ 2`), the three shaping
polygons are uniform scalar multiples of the base cell, with
`outer = (1+r)/(1−r) · inner` vertexwise; each polygon is closed with its
first vertex repeated at the end; and each nominal vertex lies between the
corresponding inner and outer vertices componentwise — strictly in every
component that is nonzero, provided `r > 0`. -/
theorem C8_shaping_polygons (q M : ℕ) (r : ℚ) (verts : List Point)
    (hq : 2 ≤ q) (hM : 1 ≤ M) (hr : r_q q M = some r) :
    (0 ≤ r ∧ r < 1 ∧ (0 < r ↔ 2 ≤ M)) ∧
    ((shapingPolys q M r verts).2.2
      = scalePoly ((1 + r) / (1 - r)) (shapingPolys q M r verts).1) ∧
    (verts ≠ [] →
      (shapingPolys q M r verts).1.length = verts.length + 1 ∧
      (shapingPolys q M r verts).2.1.length = verts.length + 1 ∧
      (shapingPolys q M r verts).2.2.length = verts.length + 1 ∧
      (shapingPolys q M r verts).1.head? = (shapingPolys q M r verts).1.getLast? ∧
      (shapingPolys q M r verts).2.1.head? = (shapingPolys q M r verts).2.1.getLast? ∧
      (shapingPolys q M r verts).2.2.head? = (shapingPolys q M r verts).2.2.getLast?) ∧
    (∀ (i : ℕ) (vIn vNom vOut : Point),
      (shapingPolys q M r verts).1[i]? = some vIn →
      (shapingPolys q M r verts).2.1[i]? = some vNom →
      (shapingPolys q M r verts).2.2[i]? = some vOut →
      (min vIn.1 vOut.1 ≤ vNom.1 ∧ vNom.1 ≤ max vIn.1 vOut.1 ∧
       min vIn.2 vOut.2 ≤ vNom.2 ∧ vNom.2 ≤ max vIn.2 vOut.2 ∧
       (0 < r → vNom.1 ≠ 0 →
          min vIn.1 vOut.1 < vNom.1 ∧ vNom.1 < max vIn.1 vOut.1) ∧
       (0 < r → vNom.2 ≠ 0 →
          min vIn.2 vOut.2 < vNom.2 ∧ vNom.2 < max vIn.2 vOut.2))) := by
  obtain ⟨hr0, hr1, hriff⟩ := r_q_bounds q M hq hM r hr
  have hk : (0 : ℚ) < (q : ℚ) ^ M :=
    pow_pos (by exact_mod_cast (by omega : 0 < q)) M
  have h1r : (1 : ℚ) - r ≠ 0 := sub_ne_zero.mpr (ne_of_lt hr1).symm
  refine ⟨⟨hr0, hr1, hriff⟩, ?_, ?_, ?_⟩
  · show closePoly (scalePoly ((q : ℚ) ^ M * (1 + r)) verts)
      = scalePoly ((1 + r) / (1 - r))
          (closePoly (scalePoly ((q : ℚ) ^ M * (1 - r)) verts))
    rw [closePoly_scalePoly, closePoly_scalePoly, scalePoly_scalePoly]
    congr 1
    field_simp
    ring
  · intro hne
    refine ⟨?_, ?_, ?_, ?_, ?_, ?_⟩
    · show (closePoly (scalePoly ((q : ℚ) ^ M * (1 - r)) verts)).length
        = verts.length + 1
      rw [closePoly_length_of_ne_nil _ (scalePoly_ne_nil _ _ hne),
        scalePoly_length]
    · show (closePoly (scalePoly ((q : ℚ) ^ M) verts)).length
        = verts.length + 1
      rw [closePoly_length_of_ne_nil _ (scalePoly_ne_nil _ _ hne),
        scalePoly_length]
    · show (closePoly (scalePoly ((q : ℚ) ^ M * (1 + r)) verts)).length
        = verts.length + 1
      rw [closePoly_length_of_ne_nil _ (scalePoly_ne_nil _ _ hne),
        scalePoly_length]
    · exact closePoly_head_getLast_of_ne_nil _ (scalePoly_ne_nil _ _ hne)
    · exact closePoly_head_getLast_of_ne_nil _ (scalePoly_ne_nil _ _ hne)
    · exact closePoly_head_getLast_of_ne_nil _ (scalePoly_ne_nil _ _ hne)
  · intro i vIn vNom vOut hIn hNom hOut
    have hIn' : (scalePoly ((q : ℚ) ^ M * (1 - r)) (closePoly verts))[i]?
        = some vIn := by rw [← closePoly_scalePoly]; exact hIn
    have hNom' : (scalePoly ((q : ℚ) ^ M) (closePoly verts))[i]? = some vNom := by
      rw [← closePoly_scalePoly]; exact hNom
    have hOut' : (scalePoly ((q : ℚ) ^ M * (1 + r)) (closePoly verts))[i]?
        = some vOut := by rw [← closePoly_scalePoly]; exact hOut
    unfold scalePoly at hIn' hNom' hOut'
    rw [List.getElem?_map] at hIn' hNom' hOut'
    cases hv : (closePoly verts)[i]? with
    | none => rw [hv] at hNom'; exact Option.noConfusion hNom'
    | some v =>
      rw [hv] at hIn' hNom' hOut'
      have hIne : vIn = (((q : ℚ) ^ M * (1 - r)) * v.1,
          ((q : ℚ) ^ M * (1 - r)) * v.2) := (Option.some.inj hIn').symm
      have hNome : vNom = ((q : ℚ) ^ M * v.1, (q : ℚ) ^ M * v.2) :=
        (Option.some.inj hNom').symm
      have hOute : vOut = (((q : ℚ) ^ M * (1 + r)) * v.1,
          ((q : ℚ) ^ M * (1 + r)) * v.2) := (Option.some.inj hOut').symm
      subst hIne hNome hOute
      obtain ⟨ha1, hb1, hs1⟩ := between_scaled ((q : ℚ) ^ M) r v.1 hk hr0
      obtain ⟨ha2, hb2, hs2⟩ := between_scaled ((q : ℚ) ^ M) r v.2 hk hr0
      exact ⟨ha1, hb1, ha2, hb2, hs1, hs2⟩

/-- Witness for C8 at `q = 4`, `M = 2`, `r = 1/4`, with a generic base
vertex off the axes. -/
theorem C8_witness :
    (shapingPolys 4 2 (1/4) [((1 : ℚ), (1 : ℚ))]).2.2
      = scalePoly ((1 + 1/4) / (1 - 1/4))
          (shapingPolys 4 2 (1/4) [((1 : ℚ), (1 : ℚ))]).1 :=
  (C8_shaping_polygons 4 2 (1/4) [((1 : ℚ), (1 : ℚ))] (by norm_num)
    (by norm_num) (by unfold r_q; norm_num)).2.1

lemma list_toFinset_map (l : List (ℕ × ℕ)) (f : (ℕ × ℕ) → Point) :
    (l.map f).toFinset = l.toFinset.image f := by
  ext x
  simp

/-- C9: for every `q ≥ 2`, `M ≥ 1` and fixed perturbation offset, sweeping
the grid in column-major instead of row-major order yields exactly the same
number of DuplicateRecords (only the identity of the first-seen pair may
change): the duplicate count is the number of swept pairs minus the number
of distinct rounded decodes, and both enumerations sweep the same set of
index pairs. -/
theorem C9_duplicate_count_order_invariant (G : Mat2)
    (hdec ndec : Point → Point) (d : Point) (q M : ℕ)
    (hq : 2 ≤ q) (hM : 1 ≤ M) :
    (sweepCol G hdec ndec d q M).duplicates.length
      = (sweep G hdec ndec d q M).duplicates.length := by
  unfold sweep sweepCol
  rw [foldl_dup_length_eq, foldl_dup_length_eq]
  have hlen : (gridColMajor (q ^ M)).length = (gridRowMajor (q ^ M)).length := by
    rw [gridColMajor_length, gridRowMajor_length]
  have hfin : ((gridColMajor (q ^ M)).map (roundOf G hdec d)).toFinset
      = ((gridRowMajor (q ^ M)).map (roundOf G hdec d)).toFinset := by
    rw [list_toFinset_map, list_toFinset_map, toFinset_gridRowMajor_eq_col]
  rw [hlen, hfin]

/-- Witness for C9 at `q = 2`, `M = 1` with concrete collaborators. -/
theorem C9_witness :
    (sweepCol Gid id id (0, 0) 2 1).duplicates.length
      = (sweep Gid id id (0, 0) 2 1).duplicates.length :=
  C9_duplicate_count_order_invariant Gid id id (0, 0) 2 1 (by norm_num)
    (by norm_num)

/-- C10: after processing any first `k` index pairs of the sweep, the number
of entries of the rounded-point map plus the number of DuplicateRecords
emitted so far equals the number of pairs processed; the map size equals the
number of distinct 9-decimal-rounded decodes, so after the full sweep the
count of distinct rounded decoded points plus the duplicate count equals
`q^(2M)`. -/
theorem C10_map_plus_duplicates_invariant (G : Mat2)
    (hdec ndec : Point → Point) (d : Point) (q M : ℕ)
    (hq : 2 ≤ q) (hM : 1 ≤ M) :
    (∀ k : ℕ,
      (sweepAcc G hdec ndec d ((gridRowMajor (q ^ M)).take k)).pointMap.length
        + (sweepAcc G hdec ndec d
            ((gridRowMajor (q ^ M)).take k)).duplicates.length
      = ((gridRowMajor (q ^ M)).take k).length) ∧
    (sweep G hdec ndec d q M).pointMap.length
      = (((gridRowMajor (q ^ M)).map (roundOf G hdec d)).toFinset).card ∧
    (sweep G hdec ndec d q M).pointMap.length
        + (sweep G hdec ndec d q M).duplicates.length = q ^ (2 * M) := by
  refine ⟨?_, ?_, ?_⟩
  · intro k
    have h := foldl_pointMap_dup_length G hdec ndec d
      ((gridRowMajor (q ^ M)).take k) initState
    have e1 : initState.pointMap.length = 0 := rfl
    have e2 : initState.duplicates.length = 0 := rfl
    rw [e1, e2] at h
    simpa [sweepAcc] using h
  · exact foldl_pointMap_length_card G hdec ndec d (gridRowMajor (q ^ M))
  · have h := foldl_pointMap_dup_length G hdec ndec d (gridRowMajor (q ^ M))
      initState
    have e1 : initState.pointMap.length = 0 := rfl
    have e2 : initState.duplicates.length = 0 := rfl
    rw [e1, e2] at h
    unfold sweep
    rw [h, gridRowMajor_length, pow_two_mul_eq]
    omega

/-- Witness for C10 at `q = 2`, `M = 1` with concrete collaborators. -/
theorem C10_witness :
    (sweep Gid id id (0, 0) 2 1).pointMap.length
        + (sweep Gid id id (0, 0) 2 1).duplicates.length = 2 ^ (2 * 1) :=
  (C10_map_plus_duplicates_invariant Gid id id (0, 0) 2 1 (by norm_num)
    (by norm_num)).2.2

end LatticeQuant
